import Mathlib

/-!
Shallow embedding of `lazyflow/operators/opFeatureMatrixCache.py`
(`OpFeatureMatrixCache`): a blockwise incremental feature/label matrix cache.

Modelling choices:
* N-dimensional coordinates and shapes are `List Nat`, with the channel axis
  last, exactly as in the source: block starts, the block shape and rois all
  carry the channel component (the label feed has one channel, so block
  starts end in `0` and the block shape ends in `1`).
* The upstream slots `LabelImage` / `FeatureImage` are modelled as fallible
  per-point fetch functions returning `Except String`; a failing fetch of a
  sub-array is a failing fetch of some point inside it.
* The mutable operator state (`_blockwise_feature_matrices`, `_dirty_blocks`,
  `_blockshape`) is an explicit `CacheState` threaded through the operations.
  The Python dict is modelled as an insertion-ordered association list (the
  dict's iteration order is implementation defined but stable while the dict
  is not mutated, which is what the proofs rely on); the dirty set is a
  duplicate-free list in an implementation-defined stable order.
* Execution is sequential: `execute` drains the snapshot of the dirty set one
  block at a time, exactly as a `RequestPool` does when run on one worker.
* Progress percentages are `ℚ` (the Python floats here are exact: 0.0, 100.0
  and `95.0 * k / n` for small integers `k ≤ n`).
-/

/-- Componentwise sum of two coordinate vectors. -/
def vAdd (a b : List Nat) : List Nat := List.zipWith (· + ·) a b

/-- Componentwise (truncated) difference of two coordinate vectors. -/
def vSub (a b : List Nat) : List Nat := List.zipWith (· - ·) a b

/-- Componentwise minimum of two coordinate vectors. -/
def vMin (a b : List Nat) : List Nat := List.zipWith min a b

/-- All positions of the hyperrectangle `[0, extents)`, enumerated in C order
(first axis slowest), matching `numpy.nonzero`'s scan order. -/
def rectPositions : List Nat → List (List Nat)
  | [] => [[]]
  | n :: rest => (List.range n).flatMap (fun i => (rectPositions rest).map (fun p => i :: p))

/-- Per-axis minimum over a nonempty list of positions (`map(numpy.min, label_positions)`). -/
def axisMins : List (List Nat) → List Nat
  | [] => []
  | p :: rest => rest.foldl (fun acc q => List.zipWith min acc q) p

/-- Per-axis maximum over a nonempty list of positions (`map(numpy.max, label_positions)`). -/
def axisMaxs : List (List Nat) → List Nat
  | [] => []
  | p :: rest => rest.foldl (fun acc q => List.zipWith max acc q) p

/-- A 2-D numeric matrix: a row list together with its column count (numpy
arrays carry their shape even with zero rows). -/
structure Mat where
  rows : List (List Int)
  cols : Nat
deriving DecidableEq, Repr

/-- The upstream data feeds consumed by the cache: `shape` is the label
image's full shape (channel last, channel extent 1), `numFeat` is the feature
channel count `K`, and the two point fetches take full coordinates with the
channel component last (`LabelImage` has a single channel; `FeatureImage`
has `K`). -/
structure Feeds where
  shape : List Nat
  numFeat : Nat
  fetchLabel : List Nat → Except String Nat
  fetchFeat : List Nat → Except String Int

/-- Fetch the label sub-array over `[roiStart, roiStop)`: every block-local
position paired with its label value, in C order
(`self.LabelImage(label_roi[0], label_roi[1]).wait()`). -/
def fetchLabelBlock (F : Feeds) (roiStart roiStop : List Nat) :
    Except String (List (List Nat × Nat)) :=
  (rectPositions (vSub roiStop roiStart)).mapM
    (fun p => (F.fetchLabel (vAdd roiStart p)).map (fun v => (p, v)))

/-- Embedding of `OpFeatureMatrixCache._extract_feature_matrix`.

Source faithfulness notes:
* `label_positions = numpy.nonzero(labels[...,0])` becomes the block-local
  SPATIAL positions (channel component dropped) with nonzero label, in
  C order; `labels_matrix = labels[label_positions]` is the label column.
* If there are no labeled points, the code returns an empty matrix of shape
  `(0, 1 + num_feature_channels)`.
* Otherwise the code computes `bounding_box_start/stop` of the labeled
  positions (these are BLOCK-LOCAL coordinates), requests the feature
  sub-array over `[bounding_box_start + [0], bounding_box_stop + [K])`
  — the local bounding box is passed as the feature roi without adding
  `label_roi[0]` — and indexes the fetched array at
  `feature_positions = label_positions - bounding_box_start`, collecting
  all `K` feature channels per row.
* The result concatenates the label column with the feature columns. -/
def extract_feature_matrix (F : Feeds) (roiStart roiStop : List Nat) :
    Except String Mat :=
  match fetchLabelBlock F roiStart roiStop with
  | .error e => .error e
  | .ok labels =>
    let label_positions := (labels.filter (fun pv => pv.2 != 0)).map
      (fun pv => (pv.1.dropLast, pv.2))
    if label_positions.isEmpty then
      .ok ⟨[], 1 + F.numFeat⟩
    else
      let labels_matrix : List (List Int) := label_positions.map (fun pv => [(pv.2 : Int)])
      let bounding_box_start := axisMins (label_positions.map Prod.fst)
      let bounding_box_stop := (axisMaxs (label_positions.map Prod.fst)).map (· + 1)
      let feature_positions := label_positions.map (fun pv => vSub pv.1 bounding_box_start)
      let feature_roi_start := bounding_box_start ++ [0]
      let feature_roi_stop := bounding_box_stop ++ [F.numFeat]
      match (rectPositions (vSub feature_roi_stop feature_roi_start)).mapM
          (fun q => (F.fetchFeat (vAdd feature_roi_start q)).map (fun v => (q, v))) with
      | .error e => .error e
      | .ok featArr =>
        let features_matrix := feature_positions.map
          (fun q => (List.range F.numFeat).map
            (fun c => ((featArr.find? (fun e => e.1 == q ++ [c])).map Prod.snd).getD 0))
        .ok ⟨List.zipWith (fun l f => l ++ f) labels_matrix features_matrix, 1 + F.numFeat⟩

/-- Modelled from the spec: `getBlockBounds` (from `lazyflow.roi`, not under
`src/`) returns the extent of the block starting at `b`, clipped to the
array bounds, so that edge blocks are smaller than interior blocks. -/
def getBlockBounds (shape blockshape b : List Nat) : List Nat × List Nat :=
  (b, vMin (vAdd b blockshape) shape)

/-- The mutable state of one `OpFeatureMatrixCache` instance:
`_blockshape`, `_blockwise_feature_matrices` (insertion-ordered association
list keyed by block start) and `_dirty_blocks` (duplicate-free list). -/
structure CacheState where
  blockshape : List Nat
  store : List (List Nat × Mat)
  dirty : List (List Nat)
deriving DecidableEq, Repr

/-- Insert or replace a key in the block matrix store
(`self._blockwise_feature_matrices[block_start] = ...`); an existing key
keeps its position, a new key is appended. -/
def storeInsert : List (List Nat × Mat) → List Nat → Mat → List (List Nat × Mat)
  | [], b, m => [(b, m)]
  | (k, v) :: rest, b, m =>
    if k = b then (k, m) :: rest else (k, v) :: storeInsert rest b m

/-- Add one block start to the dirty set if absent (set insertion). -/
def dirtyInsert (d : List (List Nat)) (b : List Nat) : List (List Nat) :=
  if b ∈ d then d else d ++ [b]

/-- Add many block starts to the dirty set (`self._dirty_blocks.update(...)`). -/
def dirtyUpdateMany (d : List (List Nat)) (bs : List (List Nat)) : List (List Nat) :=
  bs.foldl dirtyInsert d

/-- Embedding of `OpFeatureMatrixCache._update_block`: if the block is no
longer dirty, do nothing (idempotence guard for racing tasks); otherwise
extract the matrix for the block roi, install it in the store and only then
remove the block from the dirty set. An extraction error propagates and, the
mutations being sequenced strictly after the extraction in the source, leaves
both the store and the dirty set untouched. -/
def update_block (F : Feeds) (st : CacheState) (b : List Nat) :
    Except String CacheState :=
  if b ∈ st.dirty then
    match extract_feature_matrix F
        (getBlockBounds F.shape st.blockshape b).1
        (getBlockBounds F.shape st.blockshape b).2 with
    | .error e => .error e
    | .ok m =>
      .ok { st with store := storeInsert st.store b m, dirty := st.dirty.erase b }
  else .ok st

/-- The drain loop of `OpFeatureMatrixCache.execute`: process each block of
the dirty snapshot `bs` in turn; after each completed task, report
`95.0 * (num_dirty_blocks - remaining_dirty) / num_dirty_blocks` where
`n = num_dirty_blocks` is the dirty count snapshotted at call start and
`remaining_dirty` is the live dirty count. -/
def drainLoop (F : Feeds) (n : Nat) :
    List (List Nat) → CacheState → List ℚ → Except String (CacheState × List ℚ)
  | [], st, ev => .ok (st, ev)
  | b :: rest, st, ev =>
    match update_block F st b with
    | .error e => .error e
    | .ok st1 =>
      drainLoop F n rest st1
        (ev ++ [95 * ((n : ℚ) - (st1.dirty.length : ℚ)) / (n : ℚ)])

/-- Embedding of `OpFeatureMatrixCache.execute`: report `0.0`, drain the
dirty snapshot, then concatenate all stored block matrices (row-wise, in
store order; an empty store yields `numpy.ndarray(shape=(0,0))`), report
`100.0`, and return the final state, the aggregate matrix and the list of
progress reports in order. -/
def execute (F : Feeds) (st : CacheState) :
    Except String (CacheState × Mat × List ℚ) :=
  match drainLoop F st.dirty.length st.dirty st [0] with
  | .error e => .error e
  | .ok (st1, ev) =>
    let m : Mat :=
      match st1.store with
      | [] => ⟨[], 0⟩
      | (_, m0) :: _ => ⟨(st1.store.map (fun kv => kv.2.rows)).flatten, m0.cols⟩
    .ok (st1, m, ev ++ [100])

/-- The input slots that can receive a dirty notification. -/
inductive Slot
  | FeatureImage
  | LabelImage
  | NonZeroLabelBlocks
deriving DecidableEq, Repr

/-- Replace the last entry of a coordinate vector (`roi.start[-1] = 0`,
`roi.stop[-1] = 1`). -/
def setLast : List Nat → Nat → List Nat
  | [], _ => []
  | [_], v => [v]
  | x :: y :: r, v => x :: setLast (y :: r) v

/-- Modelled from the spec: per-axis block starts intersecting `[start, stop)`
for one axis of block length `bs` — a floor/ceil division of the region
bounds by the block length (`getIntersectingBlocks` lives in `lazyflow.roi`,
not under `src/`). -/
def axisBlockStarts (bs start stop : Nat) : List Nat :=
  (List.range' (start / bs) ((stop + bs - 1) / bs - start / bs)).map (· * bs)

/-- Modelled from the spec: `getIntersectingBlocks` — every block start whose
extent overlaps the given region, as the cartesian product of the per-axis
intersecting starts. -/
def gridStarts : List Nat → List Nat → List Nat → List (List Nat)
  | b :: br, s :: sr, e :: er =>
    (axisBlockStarts b s e).flatMap (fun x => (gridStarts br sr er).map (fun p => x :: p))
  | _, _, _ => [[]]

/-- Embedding of `OpFeatureMatrixCache.propagateDirty`: a notification on
`NonZeroLabelBlocks` returns immediately; otherwise the roi's channel extent
is collapsed to `[0, 1)`, every intersecting block start is added to the
dirty set, and the whole `LabelAndFeatureMatrix` output is marked dirty
(the returned `Bool` records whether `setDirty` was called). The roi is
given with its trailing channel component. -/
def propagateDirty (st : CacheState) (slot : Slot) (roiStart roiStop : List Nat) :
    CacheState × Bool :=
  match slot with
  | .NonZeroLabelBlocks => (st, false)
  | _ =>
    let s := setLast roiStart 0
    let e := setLast roiStop 1
    let block_starts := gridStarts st.blockshape s e
    ({ st with dirty := dirtyUpdateMany st.dirty block_starts }, true)

/-- Spatial volume of the block shape `shape.map (min k)`. -/
def clampedVolume (shape : List Nat) (k : Nat) : Nat :=
  ((shape.map (min k)).foldl (· * ·) 1)

/-- Modelled from the spec: `determineBlockShape` (from `lazyflow.roi`, not
under `src/`) computes a near-cubic block shape whose volume does not exceed
the block-volume budget and which never exceeds the array shape on any axis.
Per spec §4.1 it errors only on malformed input — a non-positive budget or a
zero-length (malformed) shape axis — and "must fail fast" there. The
near-cubic shape is the per-axis clamp of the largest side length whose
clamped volume fits the budget. -/
def determineBlockShape (shape : List Nat) (budget : Int) : Except String (List Nat) :=
  if budget ≤ 0 then
    .error "determineBlockShape: the block-volume budget must be positive"
  else if 0 ∈ shape then
    .error "determineBlockShape: every axis of the shape must have positive extent"
  else
    let bound := budget.toNat
    let side := (List.range (shape.foldl max 1 + 1)).foldl
      (fun acc k => if clampedVolume shape k ≤ bound then k else acc) 1
    .ok (shape.map (min side))

/-- The assertion message of the shape check in
`OpFeatureMatrixCache.setupOutputs`, naming both mismatched shapes. -/
def mismatchMsg (featShape labelShape : List Nat) : String :=
  s!"FeatureImage and LabelImage shapes do not match: {featShape} vs {labelShape}"

/-- Embedding of `OpFeatureMatrixCache.setupOutputs`: assert that both feeds
have the channel axis last, that the label feed has exactly one channel, and
that the two shapes agree on every non-channel axis (failing with a message
naming both shapes); only then compute the block shape. The axis keys of the
two feeds are passed explicitly, and the block-volume budget is a parameter
(the source fixes it to `MAX_BLOCK_PIXELS = 1e6`). -/
def setupOutputs (featShape labelShape : List Nat) (featAxes labelAxes : List Char)
    (budget : Int) : Except String (List Nat) :=
  if featAxes.getLast? ≠ some 'c' then
    .error "AssertionError: FeatureImage channel axis must be last"
  else if labelAxes.getLast? ≠ some 'c' then
    .error "AssertionError: LabelImage channel axis must be last"
  else if labelShape.getLast? ≠ some 1 then
    .error "AssertionError: LabelImage must have exactly one channel"
  else if featShape.dropLast ≠ labelShape.dropLast then
    .error (mismatchMsg featShape labelShape)
  else
    determineBlockShape labelShape budget

/-- The last progress report in one drain pass is the final one: the sequence
of reported percentages produced by draining `m` remaining blocks out of a
snapshot of `n`. -/
def progressEvents (n : Nat) : Nat → List ℚ
  | 0 => []
  | m + 1 => (95 * ((n : ℚ) - (m : ℚ)) / (n : ℚ)) :: progressEvents n m

/-- The invariant of claim C6: every block that was ever marked dirty is
either still pending in the dirty set or has a matrix installed in the store. -/
def coveredInv (st : CacheState) (marked : List (List Nat)) : Prop :=
  ∀ b ∈ marked, b ∈ st.dirty ∨ b ∈ st.store.map Prod.fst

/-! ## Concrete fixtures used by the claim witnesses and counterexamples -/

/-- A two-block worked example: one spatial axis of extent 2 plus the channel
axis; one labeled point (label `5`) at global position `[1, 0]`; one feature
channel whose value is `10` at spatial position `0` and `20` at spatial
position `1`. -/
def F1 : Feeds :=
  { shape := [2, 1], numFeat := 1,
    fetchLabel := fun p => .ok (if p = [1, 0] then 5 else 0),
    fetchFeat := fun p => .ok (if p.headD 0 = 0 then 10 else 20) }

/-- Cache state for `F1` with both blocks dirty and nothing cached. -/
def st1 : CacheState :=
  { blockshape := [1, 1], store := [], dirty := [[0, 0], [1, 0]] }

/-- An all-zero label feed with two feature channels. -/
def F0 : Feeds :=
  { shape := [2, 1], numFeat := 2,
    fetchLabel := fun _ => .ok 0,
    fetchFeat := fun _ => .ok 0 }

/-- A fully clean, fully empty cache state. -/
def st0 : CacheState := { blockshape := [1, 1], store := [], dirty := [] }

/-- The all-zero feed state with both blocks dirty and nothing cached. -/
def stZ : CacheState :=
  { blockshape := [1, 1], store := [], dirty := [[0, 0], [1, 0]] }

/-- A feed whose label fetch always fails. -/
def Ferr : Feeds :=
  { shape := [2, 1], numFeat := 1,
    fetchLabel := fun _ => .error "FetchFailed",
    fetchFeat := fun _ => .ok 0 }

/-- A state for `Ferr` with its single block dirty. -/
def sterr : CacheState :=
  { blockshape := [1, 1], store := [], dirty := [[0, 0]] }

/-! ## Helper lemmas about the store and the dirty set -/

theorem mem_storeInsert_self (s : List (List Nat × Mat)) (b : List Nat) (m : Mat) :
    b ∈ (storeInsert s b m).map Prod.fst := by
  induction s with
  | nil => simp [storeInsert]
  | cons kv rest ih =>
    obtain ⟨k, v⟩ := kv
    by_cases hk : k = b
    · simp [storeInsert, hk]
    · simpa [storeInsert, hk] using Or.inr ih

theorem mem_storeInsert_of_mem (s : List (List Nat × Mat)) (b x : List Nat) (m : Mat)
    (h : x ∈ s.map Prod.fst) : x ∈ (storeInsert s b m).map Prod.fst := by
  induction s with
  | nil => simp at h
  | cons kv rest ih =>
    obtain ⟨k, v⟩ := kv
    by_cases hk : k = b
    · simpa [storeInsert, hk] using (by simpa [hk] using h)
    · rcases (by simpa using h) with hx | hx
      · simp [storeInsert, hk, hx]
      · simpa [storeInsert, hk] using Or.inr (ih (by simpa using hx))

theorem storeInsert_ne_nil (s : List (List Nat × Mat)) (b : List Nat) (m : Mat) :
    storeInsert s b m ≠ [] := by
  cases s with
  | nil => simp [storeInsert]
  | cons kv rest =>
    obtain ⟨k, v⟩ := kv
    by_cases hk : k = b <;> simp [storeInsert, hk]

theorem mem_of_mem_storeInsert (s : List (List Nat × Mat)) (b : List Nat) (m : Mat)
    (kv : List Nat × Mat) (h : kv ∈ storeInsert s b m) : kv ∈ s ∨ kv = (b, m) := by
  induction s with
  | nil => simpa [storeInsert] using h
  | cons kv0 rest ih =>
    obtain ⟨k, v⟩ := kv0
    by_cases hk : k = b
    · rcases (by simpa [storeInsert, hk] using h) with h1 | h1
      · right; simp [h1, hk]
      · left; simp [h1]
    · rcases (by simpa [storeInsert, hk] using h) with h1 | h1
      · left; simp [h1]
      · rcases ih h1 with h2 | h2
        · left; simp [h2]
        · right; exact h2

theorem mem_dirtyInsert_of_mem (d : List (List Nat)) (b x : List Nat) (h : x ∈ d) :
    x ∈ dirtyInsert d b := by
  unfold dirtyInsert
  by_cases hb : b ∈ d <;> simp [hb, h]

theorem mem_dirtyInsert_self (d : List (List Nat)) (b : List Nat) :
    b ∈ dirtyInsert d b := by
  unfold dirtyInsert
  by_cases hb : b ∈ d <;> simp [hb]

theorem mem_of_mem_dirtyInsert (d : List (List Nat)) (b x : List Nat)
    (h : x ∈ dirtyInsert d b) : x ∈ d ∨ x = b := by
  unfold dirtyInsert at h
  by_cases hb : b ∈ d
  · simp [hb] at h; exact Or.inl h
  · simpa [hb] using h

theorem mem_dirtyUpdateMany_of_mem (bs : List (List Nat)) :
    ∀ (d : List (List Nat)) (x : List Nat), x ∈ d → x ∈ dirtyUpdateMany d bs := by
  induction bs with
  | nil => intro d x h; simpa [dirtyUpdateMany] using h
  | cons b rest ih =>
    intro d x h
    simpa [dirtyUpdateMany] using ih (dirtyInsert d b) x (mem_dirtyInsert_of_mem d b x h)

theorem mem_dirtyUpdateMany_of_mem_blocks (bs : List (List Nat)) :
    ∀ (d : List (List Nat)) (x : List Nat), x ∈ bs → x ∈ dirtyUpdateMany d bs := by
  induction bs with
  | nil => intro d x h; simp at h
  | cons b rest ih =>
    intro d x h
    rcases (by simpa using h) with hx | hx
    · subst hx
      simpa [dirtyUpdateMany] using
        mem_dirtyUpdateMany_of_mem rest (dirtyInsert d x) x (mem_dirtyInsert_self d x)
    · simpa [dirtyUpdateMany] using ih (dirtyInsert d b) x hx

theorem mem_of_mem_dirtyUpdateMany (bs : List (List Nat)) :
    ∀ (d : List (List Nat)) (x : List Nat), x ∈ dirtyUpdateMany d bs → x ∈ d ∨ x ∈ bs := by
  induction bs with
  | nil => intro d x h; exact Or.inl (by simpa [dirtyUpdateMany] using h)
  | cons b rest ih =>
    intro d x h
    rcases ih (dirtyInsert d b) x (by simpa [dirtyUpdateMany] using h) with h1 | h1
    · rcases mem_of_mem_dirtyInsert d b x h1 with h2 | h2
      · exact Or.inl h2
      · exact Or.inr (by simp [h2])
    · exact Or.inr (by simp [h1])

/-! ## Helper lemmas about `update_block`, `drainLoop` and `execute` -/

theorem update_block_dirty_ok (F : Feeds) (st : CacheState) (b : List Nat) (m : Mat)
    (hb : b ∈ st.dirty)
    (hex : extract_feature_matrix F
      (getBlockBounds F.shape st.blockshape b).1
      (getBlockBounds F.shape st.blockshape b).2 = .ok m) :
    update_block F st b =
      .ok { st with store := storeInsert st.store b m, dirty := st.dirty.erase b } := by
  unfold update_block
  rw [if_pos hb, hex]

theorem update_block_ok_inv (F : Feeds) (st : CacheState) (b : List Nat) (st1 : CacheState)
    (h : update_block F st b = .ok st1) :
    (b ∉ st.dirty ∧ st1 = st) ∨
    (b ∈ st.dirty ∧ ∃ m, extract_feature_matrix F
        (getBlockBounds F.shape st.blockshape b).1
        (getBlockBounds F.shape st.blockshape b).2 = .ok m ∧
      st1 = { st with store := storeInsert st.store b m, dirty := st.dirty.erase b }) := by
  unfold update_block at h
  by_cases hb : b ∈ st.dirty
  · rw [if_pos hb] at h
    cases hex : extract_feature_matrix F
        (getBlockBounds F.shape st.blockshape b).1
        (getBlockBounds F.shape st.blockshape b).2 with
    | error e => rw [hex] at h; exact absurd h (by simp)
    | ok m =>
      rw [hex] at h
      exact Or.inr ⟨hb, m, rfl, by simpa using h.symm⟩
  · rw [if_neg hb] at h
    exact Or.inl ⟨hb, by simpa using h.symm⟩

/-- Processing the snapshot of the dirty set drains the dirty set completely:
each step erases exactly the head of the remaining dirty list. -/
theorem drainLoop_drains (F : Feeds) (n : Nat) :
    ∀ (bs : List (List Nat)) (st : CacheState) (ev : List ℚ)
      (st' : CacheState) (ev' : List ℚ),
      st.dirty = bs → drainLoop F n bs st ev = .ok (st', ev') → st'.dirty = [] := by
  intro bs
  induction bs with
  | nil =>
    intro st ev st' ev' hd h
    simp only [drainLoop, Except.ok.injEq, Prod.mk.injEq] at h
    rw [← h.1, hd]
  | cons b rest ih =>
    intro st ev st' ev' hd h
    simp only [drainLoop] at h
    have hb : b ∈ st.dirty := by rw [hd]; exact List.mem_cons_self b rest
    cases hu : update_block F st b with
    | error e => rw [hu] at h; exact absurd h (by simp)
    | ok st1 =>
      rw [hu] at h
      rcases update_block_ok_inv F st b st1 hu with ⟨hnb, _⟩ | ⟨_, m, _, hst1⟩
      · exact absurd hb hnb
      · have hd1 : st1.dirty = rest := by
          rw [hst1]; simp [hd]
        exact ih st1 _ st' ev' hd1 h

theorem drainLoop_events (F : Feeds) (n : Nat) :
    ∀ (bs : List (List Nat)) (st : CacheState) (ev : List ℚ)
      (st' : CacheState) (ev' : List ℚ),
      st.dirty = bs → drainLoop F n bs st ev = .ok (st', ev') →
      ev' = ev ++ progressEvents n bs.length := by
  intro bs
  induction bs with
  | nil =>
    intro st ev st' ev' hd h
    simp only [drainLoop, Except.ok.injEq, Prod.mk.injEq] at h
    simp [progressEvents, ← h.2]
  | cons b rest ih =>
    intro st ev st' ev' hd h
    simp only [drainLoop] at h
    have hb : b ∈ st.dirty := by rw [hd]; exact List.mem_cons_self b rest
    cases hu : update_block F st b with
    | error e => rw [hu] at h; exact absurd h (by simp)
    | ok st1 =>
      rw [hu] at h
      rcases update_block_ok_inv F st b st1 hu with ⟨hnb, _⟩ | ⟨_, m, _, hst1⟩
      · exact absurd hb hnb
      · have hd1 : st1.dirty = rest := by
          rw [hst1]; simp [hd]
        have := ih st1 _ st' ev' hd1 h
        rw [this, hd1]
        simp [progressEvents, List.append_assoc]

theorem update_block_coveredInv (F : Feeds) (st : CacheState) (b : List Nat)
    (st1 : CacheState) (marked : List (List Nat))
    (h : update_block F st b = .ok st1) (hinv : coveredInv st marked) :
    coveredInv st1 marked := by
  rcases update_block_ok_inv F st b st1 h with ⟨_, hst1⟩ | ⟨_, m, _, hst1⟩
  · rw [hst1]; exact hinv
  · intro x hx
    rcases hinv x hx with hd | hs
    · by_cases hxb : x = b
      · right; rw [hst1, hxb]; exact mem_storeInsert_self st.store b m
      · left; rw [hst1]; exact (List.mem_erase_of_ne hxb).mpr hd
    · right; rw [hst1]; exact mem_storeInsert_of_mem st.store b x m hs

theorem drainLoop_coveredInv (F : Feeds) (n : Nat) :
    ∀ (bs : List (List Nat)) (st : CacheState) (ev : List ℚ)
      (st' : CacheState) (ev' : List ℚ) (marked : List (List Nat)),
      drainLoop F n bs st ev = .ok (st', ev') → coveredInv st marked →
      coveredInv st' marked := by
  intro bs
  induction bs with
  | nil =>
    intro st ev st' ev' marked h hinv
    simp only [drainLoop, Except.ok.injEq, Prod.mk.injEq] at h
    rw [← h.1]; exact hinv
  | cons b rest ih =>
    intro st ev st' ev' marked h hinv
    simp only [drainLoop] at h
    cases hu : update_block F st b with
    | error e => rw [hu] at h; exact absurd h (by simp)
    | ok st1 =>
      rw [hu] at h
      exact ih st1 _ st' ev' marked h (update_block_coveredInv F st b st1 marked hu hinv)

/-- Inversion of a successful `execute` call: the drain loop succeeded on the
dirty snapshot, the events are the drain events followed by `100`, and the
matrix is the concatenation of the final store (or the `(0, 0)` array when
the store is empty). -/
theorem execute_ok_inv (F : Feeds) (st st' : CacheState) (m : Mat) (ev : List ℚ)
    (h : execute F st = .ok (st', m, ev)) :
    ∃ ev1, drainLoop F st.dirty.length st.dirty st [0] = .ok (st', ev1) ∧
      ev = ev1 ++ [100] ∧
      m = (match st'.store with
           | [] => (⟨[], 0⟩ : Mat)
           | (_, m0) :: _ => ⟨(st'.store.map (fun kv => kv.2.rows)).flatten, m0.cols⟩) := by
  unfold execute at h
  cases hdl : drainLoop F st.dirty.length st.dirty st [0] with
  | error e => rw [hdl] at h; exact absurd h (by simp)
  | ok p =>
    obtain ⟨st1, ev1⟩ := p
    rw [hdl] at h
    simp only [Except.ok.injEq, Prod.mk.injEq] at h
    obtain ⟨h1, h2, h3⟩ := h
    subst h1
    exact ⟨ev1, rfl, h3.symm, h2.symm⟩

/-! ## Helper lemmas for the all-zero-label scenario -/

theorem mapM_ok {α β : Type} (f : α → Except String β) (g : α → β) :
    ∀ l : List α, (∀ x ∈ l, f x = .ok (g x)) → l.mapM f = .ok (l.map g) := by
  intro l
  induction l with
  | nil => intro _; rfl
  | cons x xs ih =>
    intro h
    rw [List.mapM_cons, h x (List.mem_cons_self x xs),
        ih (fun y hy => h y (List.mem_cons_of_mem x hy))]
    rfl

theorem fetchLabelBlock_all_zero (F : Feeds) (hlab : ∀ p, F.fetchLabel p = .ok 0)
    (s e : List Nat) :
    fetchLabelBlock F s e = .ok ((rectPositions (vSub e s)).map (fun p => (p, 0))) := by
  unfold fetchLabelBlock
  exact mapM_ok _ (fun p => (p, 0)) _ (fun p _ => by rw [hlab (vAdd s p)]; rfl)

/-- When every label fetch returns `0`, the extracted matrix is the empty
matrix of shape `(0, 1 + K)`. -/
theorem extract_all_zero (F : Feeds) (hlab : ∀ p, F.fetchLabel p = .ok 0)
    (s e : List Nat) :
    extract_feature_matrix F s e = .ok ⟨[], 1 + F.numFeat⟩ := by
  have hfilter : ((rectPositions (vSub e s)).map (fun p => (p, 0))).filter
      (fun pv : List Nat × Nat => pv.2 != 0) = [] := by
    rw [List.filter_eq_nil_iff]
    intro a ha
    rcases List.mem_map.mp ha with ⟨p, _, hp⟩
    rw [← hp]; simp
  unfold extract_feature_matrix
  rw [fetchLabelBlock_all_zero F hlab s e]
  simp only [hfilter, List.map_nil, List.isEmpty_nil, if_pos]

/-- When the label sub-array fetched for one roi contains only zeros — in any
feed, whatever the rest of the feed holds — the extracted matrix is the empty
matrix of shape `(0, 1 + K)`. -/
theorem extract_zero_block (G : Feeds) (s e : List Nat)
    (labels : List (List Nat × Nat))
    (hfetch : fetchLabelBlock G s e = .ok labels)
    (hzero : ∀ pv ∈ labels, pv.2 = 0) :
    extract_feature_matrix G s e = .ok ⟨[], 1 + G.numFeat⟩ := by
  have hfilter : labels.filter (fun pv => pv.2 != 0) = [] := by
    rw [List.filter_eq_nil_iff]
    intro pv hpv
    simp [hzero pv hpv]
  unfold extract_feature_matrix
  rw [hfetch]
  simp only [hfilter, List.map_nil, List.isEmpty_nil, if_pos]

/-- When every matrix in the store is the same empty matrix, the row
concatenation is empty. -/
theorem flatten_all_empty (em : Mat) (hem : em.rows = []) :
    ∀ s : List (List Nat × Mat), (∀ kv ∈ s, kv.2 = em) →
      ((s.map (fun kv => kv.2.rows)).flatten : List (List Int)) = [] := by
  intro s
  induction s with
  | nil => intro _; simp
  | cons kv rest ih =>
    intro h
    have h1 : kv.2 = em := h kv (List.mem_cons_self kv rest)
    simp only [List.map_cons, List.flatten_cons, h1, hem, List.nil_append]
    exact ih (fun x hx => h x (List.mem_cons_of_mem kv hx))

/-- Draining a dirty snapshot under an all-zero label feed succeeds, installs
only empty matrices, and makes the store nonempty as soon as the snapshot or
the initial store is. -/
theorem drainLoop_all_zero (F : Feeds) (hlab : ∀ p, F.fetchLabel p = .ok 0) (n : Nat) :
    ∀ (bs : List (List Nat)) (st : CacheState) (ev : List ℚ),
      st.dirty = bs → (∀ kv ∈ st.store, kv.2 = (⟨[], 1 + F.numFeat⟩ : Mat)) →
      ∃ st' ev', drainLoop F n bs st ev = .ok (st', ev') ∧
        (∀ kv ∈ st'.store, kv.2 = (⟨[], 1 + F.numFeat⟩ : Mat)) ∧
        (st.store ≠ [] ∨ bs ≠ [] → st'.store ≠ []) := by
  intro bs
  induction bs with
  | nil =>
    intro st ev hd hstore
    refine ⟨st, ev, by simp [drainLoop], hstore, ?_⟩
    intro h
    rcases h with h | h
    · exact h
    · exact absurd rfl h
  | cons b rest ih =>
    intro st ev hd hstore
    have hb : b ∈ st.dirty := by rw [hd]; exact List.mem_cons_self b rest
    have hup := update_block_dirty_ok F st b ⟨[], 1 + F.numFeat⟩ hb
      (extract_all_zero F hlab _ _)
    set st1 : CacheState :=
      { st with store := storeInsert st.store b ⟨[], 1 + F.numFeat⟩,
                dirty := st.dirty.erase b } with hst1
    have hd1 : st1.dirty = rest := by rw [hst1]; simp [hd]
    have hstore1 : ∀ kv ∈ st1.store, kv.2 = (⟨[], 1 + F.numFeat⟩ : Mat) := by
      intro kv hkv
      rcases mem_of_mem_storeInsert st.store b ⟨[], 1 + F.numFeat⟩ kv hkv with h1 | h1
      · exact hstore kv h1
      · rw [h1]
    obtain ⟨st', ev', hdl, hstore', hne⟩ := ih st1 _ hd1 hstore1
    refine ⟨st', ev', ?_, hstore', ?_⟩
    · simp only [drainLoop, hup]
      exact hdl
    · intro _
      apply hne
      left
      exact storeInsert_ne_nil st.store b ⟨[], 1 + F.numFeat⟩

/-- Closed form of the drain-pass progress reports: draining all `m` of `n`
remaining blocks reports `95 k / n` for `k = n - m + 1, ..., n` in order. -/
theorem progressEvents_eq (n : Nat) :
    ∀ m, m ≤ n →
      progressEvents n m =
        (List.range' (n - m + 1) m).map (fun k : Nat => 95 * (k : ℚ) / (n : ℚ)) := by
  intro m
  induction m with
  | zero => intro _; rfl
  | succ m ih =>
    intro hm
    have hm' : m ≤ n := Nat.le_of_succ_le hm
    have h1 : n - (m + 1) + 1 = n - m := by omega
    show (95 * ((n : ℚ) - (m : ℚ)) / (n : ℚ)) :: progressEvents n m = _
    rw [ih hm', h1, List.range'_succ, List.map_cons]
    congr 1
    rw [Nat.cast_sub hm']

/-! ## Claim theorems -/

/-- Claim C1 (code bug): in the two-block feed `F1` the labeled point sits at
global position `[1, 0]` (label `5`, feature value `20`) inside the block
starting at `[1, 0]`; recomputing that block installs the row `[5, 10]`,
whose feature entry was fetched from global position `[0, 0]`, because
`_extract_feature_matrix` passes the block-local bounding box as the feature
roi without offsetting it by the block start. The matrix row therefore does
not hold the point's feature value `20`, contradicting the claim for blocks
whose origin is not the array origin. -/
theorem wrong_features_for_nonorigin_block :
    extract_feature_matrix F1 [1, 0] [2, 1] = Except.ok ⟨[[5, 10]], 2⟩ ∧
    update_block F1 st1 [1, 0] =
      Except.ok { st1 with store := [([1, 0], ⟨[[5, 10]], 2⟩)], dirty := [[0, 0]] } ∧
    F1.fetchFeat [1, 0] = Except.ok 20 ∧
    ([[(5 : Int), 10]] : List (List Int)) ≠ [[5, 20]] :=
  ⟨rfl, rfl, rfl, by decide⟩

/-- Claim C2, counterexample: with the store empty at the end of the read
(nothing dirty, nothing cached), `execute` returns the matrix of shape
`(0, 0)`, whose column count `0` is not the `1 + K = 3` the claim requires
for `F0`. -/
theorem empty_store_columns_cex :
    execute F0 st0 = Except.ok (st0, ⟨[], 0⟩, [0, 100]) ∧
    ((⟨[], 0⟩ : Mat)).cols ≠ 1 + F0.numFeat :=
  ⟨rfl, by decide⟩

/-- Claim C2 (amended): when the Block Cache Store holds no block matrices at
the end of a `getMatrix()` call, the call returns the zero-row, zero-column
matrix `numpy.ndarray(shape=(0,0))` — not a `1 + K`-column one. -/
theorem execute_empty_store_shape (F : Feeds) (st st' : CacheState) (m : Mat)
    (ev : List ℚ) (h : execute F st = Except.ok (st', m, ev))
    (hempty : st'.store = []) : m.rows = [] ∧ m.cols = 0 := by
  obtain ⟨ev1, _, _, hm⟩ := execute_ok_inv F st st' m ev h
  rw [hempty] at hm
  rw [hm]
  exact ⟨rfl, rfl⟩

/-- Witness for the amended claim C2 at the concrete clean state `st0`. -/
theorem execute_empty_store_shape_witness :
    (⟨[], 0⟩ : Mat).rows = ([] : List (List Int)) ∧ (⟨[], 0⟩ : Mat).cols = 0 :=
  execute_empty_store_shape F0 st0 st0 ⟨[], 0⟩ [0, 100] rfl rfl

/-- Claim C3: if extracting a dirty block's matrix fails, `_update_block`
propagates that very error and returns no new state; the mutations of the
store and the dirty set are sequenced strictly after the extraction, so the
cache state is unchanged on error — the block stays dirty and no matrix
(partial or otherwise) is installed. -/
theorem update_block_error_propagates (F : Feeds) (st : CacheState)
    (b : List Nat) (e : String) (hb : b ∈ st.dirty)
    (herr : extract_feature_matrix F
      (getBlockBounds F.shape st.blockshape b).1
      (getBlockBounds F.shape st.blockshape b).2 = .error e) :
    update_block F st b = Except.error e ∧
    ∀ st1, update_block F st b ≠ Except.ok st1 := by
  have h : update_block F st b = Except.error e := by
    unfold update_block
    rw [if_pos hb, herr]
  exact ⟨h, fun st1 hok => by rw [h] at hok; exact absurd hok (by simp)⟩

/-- Witness for claim C3 at the failing feed `Ferr`. -/
theorem update_block_error_propagates_witness :
    update_block Ferr sterr [0, 0] = Except.error "FetchFailed" ∧
    ∀ st1, update_block Ferr sterr [0, 0] ≠ Except.ok st1 :=
  update_block_error_propagates Ferr sterr [0, 0] "FetchFailed" (by decide) rfl

/-- Claim C10: an invalidation arriving on `NonZeroLabelBlocks` is a complete
no-op for every region: the state (dirty set, store, block shape) is
returned unchanged and the output is not marked dirty. -/
theorem nonzero_blocks_slot_noop (st : CacheState) (rs re : List Nat) :
    (propagateDirty st Slot.NonZeroLabelBlocks rs re).1 = st ∧
    (propagateDirty st Slot.NonZeroLabelBlocks rs re).2 = false :=
  ⟨rfl, rfl⟩

/-- Claim C4: a successful read drains the dirty set completely, and a second
read with no intervening invalidation recomputes nothing: it returns the very
same state and the bit-identical aggregate matrix (its only progress events
being the initial `0` and the final `100`, since no block is dirty). -/
theorem execute_idempotent (F : Feeds) (st st1 : CacheState) (m : Mat)
    (ev : List ℚ) (h : execute F st = Except.ok (st1, m, ev)) :
    st1.dirty = [] ∧ execute F st1 = Except.ok (st1, m, [0, 100]) := by
  obtain ⟨ev1, hdl, hev, hm⟩ := execute_ok_inv F st st1 m ev h
  have hnil : st1.dirty = [] :=
    drainLoop_drains F st.dirty.length st.dirty st [0] st1 ev1 rfl hdl
  refine ⟨hnil, ?_⟩
  have h2 : drainLoop F st1.dirty.length st1.dirty st1 [0] = .ok (st1, [0]) := by
    rw [hnil]; rfl
  unfold execute
  rw [h2, hm]
  rfl

/-- Witness for claim C4 at the concrete clean state `st0`. -/
theorem execute_idempotent_witness :
    st0.dirty = [] ∧ execute F0 st0 = Except.ok (st0, ⟨[], 0⟩, [0, 100]) :=
  execute_idempotent F0 st0 st0 ⟨[], 0⟩ [0, 100] rfl

/-- Claim C9: an invalidation on `FeatureImage` or `LabelImage` first
collapses the roi's channel extent to `[0, 1)`, then adds exactly the block
starts intersecting the collapsed region to the dirty set (never removing
any), leaves the store and the block shape untouched, and marks the whole
output dirty regardless of the region. -/
theorem propagate_data_slot_marks (st : CacheState) (slot : Slot)
    (rs re : List Nat) (hslot : slot ≠ Slot.NonZeroLabelBlocks) :
    (propagateDirty st slot rs re).1.blockshape = st.blockshape ∧
    (propagateDirty st slot rs re).1.store = st.store ∧
    (∀ b ∈ st.dirty, b ∈ (propagateDirty st slot rs re).1.dirty) ∧
    (∀ b ∈ gridStarts st.blockshape (setLast rs 0) (setLast re 1),
      b ∈ (propagateDirty st slot rs re).1.dirty) ∧
    (∀ b ∈ (propagateDirty st slot rs re).1.dirty,
      b ∈ st.dirty ∨ b ∈ gridStarts st.blockshape (setLast rs 0) (setLast re 1)) ∧
    (propagateDirty st slot rs re).2 = true := by
  cases slot with
  | NonZeroLabelBlocks => exact absurd rfl hslot
  | FeatureImage =>
    exact ⟨rfl, rfl,
      fun b hb => mem_dirtyUpdateMany_of_mem _ _ b hb,
      fun b hb => mem_dirtyUpdateMany_of_mem_blocks _ _ b hb,
      fun b hb => mem_of_mem_dirtyUpdateMany _ _ b hb,
      rfl⟩
  | LabelImage =>
    exact ⟨rfl, rfl,
      fun b hb => mem_dirtyUpdateMany_of_mem _ _ b hb,
      fun b hb => mem_dirtyUpdateMany_of_mem_blocks _ _ b hb,
      fun b hb => mem_of_mem_dirtyUpdateMany _ _ b hb,
      rfl⟩

/-- Witness for claim C9: a `FeatureImage` invalidation on `st1` with a
multi-channel roi. -/
theorem propagate_data_slot_marks_witness :
    (propagateDirty st1 Slot.FeatureImage [1, 0] [2, 3]).1.blockshape = st1.blockshape ∧
    (propagateDirty st1 Slot.FeatureImage [1, 0] [2, 3]).1.store = st1.store ∧
    (∀ b ∈ st1.dirty, b ∈ (propagateDirty st1 Slot.FeatureImage [1, 0] [2, 3]).1.dirty) ∧
    (∀ b ∈ gridStarts st1.blockshape (setLast [1, 0] 0) (setLast [2, 3] 1),
      b ∈ (propagateDirty st1 Slot.FeatureImage [1, 0] [2, 3]).1.dirty) ∧
    (∀ b ∈ (propagateDirty st1 Slot.FeatureImage [1, 0] [2, 3]).1.dirty,
      b ∈ st1.dirty ∨ b ∈ gridStarts st1.blockshape (setLast [1, 0] 0) (setLast [2, 3] 1)) ∧
    (propagateDirty st1 Slot.FeatureImage [1, 0] [2, 3]).2 = true :=
  propagate_data_slot_marks st1 Slot.FeatureImage [1, 0] [2, 3] (by simp)

/-- Claim C5: recomputing any dirty block whose fetched label sub-array
contains zero nonzero-label points — in any feed and any cache state, also
when other blocks of the feed do hold labels — installs the empty
`(0, 1 + K)` matrix for that block and removes it from the dirty set without
raising an error; consequently a read over an all-zero label feed whose
blocks have all been marked dirty (store initially empty) yields the
aggregate matrix with `0` rows and `1 + K` columns. -/
theorem zero_label_block_empty_matrix :
    (∀ (G : Feeds) (stG : CacheState) (b : List Nat)
        (labels : List (List Nat × Nat)),
      b ∈ stG.dirty →
      fetchLabelBlock G (getBlockBounds G.shape stG.blockshape b).1
        (getBlockBounds G.shape stG.blockshape b).2 = .ok labels →
      (∀ pv ∈ labels, pv.2 = 0) →
      update_block G stG b =
        Except.ok { stG with store := storeInsert stG.store b ⟨[], 1 + G.numFeat⟩,
                             dirty := stG.dirty.erase b }) ∧
    (∀ (F : Feeds) (st : CacheState), (∀ p, F.fetchLabel p = Except.ok 0) →
      st.store = [] → st.dirty ≠ [] →
      ∃ st' ev, execute F st = Except.ok (st', ⟨[], 1 + F.numFeat⟩, ev)) := by
  constructor
  · intro G stG b labels hb hfetch hzero
    exact update_block_dirty_ok G stG b ⟨[], 1 + G.numFeat⟩ hb
      (extract_zero_block G _ _ labels hfetch hzero)
  · intro F st hlab hstore hne
    obtain ⟨st', ev', hdl, hstore', hne'⟩ :=
      drainLoop_all_zero F hlab st.dirty.length st.dirty st [0] rfl
        (by rw [hstore]; intro kv hkv; exact absurd hkv (List.not_mem_nil kv))
    have hsne : st'.store ≠ [] := hne' (Or.inr hne)
    refine ⟨st', ev' ++ [100], ?_⟩
    unfold execute
    rw [hdl]
    have hflat : ((st'.store.map (fun kv => kv.2.rows)).flatten : List (List Int)) = [] :=
      flatten_all_empty ⟨[], 1 + F.numFeat⟩ rfl st'.store hstore'
    cases hs : st'.store with
    | nil => exact absurd hs hsne
    | cons kv rest =>
      obtain ⟨bk, mk⟩ := kv
      have hmk : mk = (⟨[], 1 + F.numFeat⟩ : Mat) := by
        have := hstore' (bk, mk) (by rw [hs]; exact List.mem_cons_self _ _)
        simpa using this
      rw [hs] at hflat
      rw [hmk] at hflat
      simp only [hs, hmk, hflat]

/-- Witness for claim C5: the zero-label block `[0, 0]` of the feed `F1`
(whose other block does hold a label), and the all-zero read over `stZ`. -/
theorem zero_label_block_empty_matrix_witness :
    update_block F1 st1 [0, 0] =
      Except.ok { st1 with store := storeInsert st1.store [0, 0] ⟨[], 1 + F1.numFeat⟩,
                           dirty := st1.dirty.erase [0, 0] } ∧
    ∃ st' ev, execute F0 stZ = Except.ok (st', ⟨[], 1 + F0.numFeat⟩, ev) :=
  ⟨zero_label_block_empty_matrix.1 F1 st1 [0, 0] [([0, 0], 0)] (by decide) rfl
      (by decide),
   zero_label_block_empty_matrix.2 F0 stZ (fun _ => rfl) rfl (by simp [stZ])⟩

/-- Helper for claim C6: adding a set of blocks to both the marked set and
the dirty set preserves coverage. -/
theorem propagate_cover_aux (st : CacheState) (marked blocks : List (List Nat))
    (hinv : coveredInv st marked) :
    ∀ x ∈ marked ++ blocks,
      x ∈ dirtyUpdateMany st.dirty blocks ∨ x ∈ st.store.map Prod.fst := by
  intro x hx
  rcases List.mem_append.mp hx with hx | hx
  · rcases hinv x hx with hd | hs
    · exact Or.inl (mem_dirtyUpdateMany_of_mem _ _ x hd)
    · exact Or.inr hs
  · exact Or.inl (mem_dirtyUpdateMany_of_mem_blocks _ _ x hx)

/-- Claim C6: if every block ever marked dirty is covered (still dirty, or
cached in the store), then each operation preserves coverage — an
invalidation on a data slot (which also marks its new blocks), a block
recompute, and a full read. A block identity leaves the dirty set only at
the step that installs its matrix, so no marked block is ever simultaneously
absent from the dirty set and absent from the store. -/
theorem dirty_cleared_only_after_install (F : Feeds) (st : CacheState)
    (marked : List (List Nat)) (hinv : coveredInv st marked) :
    (∀ (slot : Slot) (rs re : List Nat), slot ≠ Slot.NonZeroLabelBlocks →
      coveredInv (propagateDirty st slot rs re).1
        (marked ++ gridStarts st.blockshape (setLast rs 0) (setLast re 1))) ∧
    (∀ (b : List Nat) (st1 : CacheState), update_block F st b = Except.ok st1 →
      coveredInv st1 marked) ∧
    (∀ (st1 : CacheState) (m : Mat) (ev : List ℚ),
      execute F st = Except.ok (st1, m, ev) → coveredInv st1 marked) := by
  refine ⟨?_, ?_, ?_⟩
  · intro slot rs re hslot
    cases slot with
    | NonZeroLabelBlocks => exact absurd rfl hslot
    | FeatureImage => exact propagate_cover_aux st marked _ hinv
    | LabelImage => exact propagate_cover_aux st marked _ hinv
  · intro b st1 h
    exact update_block_coveredInv F st b st1 marked h hinv
  · intro st1 m ev h
    obtain ⟨ev1, hdl, _, _⟩ := execute_ok_inv F st st1 m ev h
    exact drainLoop_coveredInv F st.dirty.length st.dirty st [0] st1 ev1 marked hdl hinv

/-- Witness for claim C6 at `st1` with both of its blocks marked. -/
theorem dirty_cleared_only_after_install_witness :
    (∀ (slot : Slot) (rs re : List Nat), slot ≠ Slot.NonZeroLabelBlocks →
      coveredInv (propagateDirty st1 slot rs re).1
        ([[0, 0], [1, 0]] ++ gridStarts st1.blockshape (setLast rs 0) (setLast re 1))) ∧
    (∀ (b : List Nat) (stB : CacheState), update_block F1 st1 b = Except.ok stB →
      coveredInv stB [[0, 0], [1, 0]]) ∧
    (∀ (stB : CacheState) (m : Mat) (ev : List ℚ),
      execute F1 st1 = Except.ok (stB, m, ev) → coveredInv stB [[0, 0], [1, 0]]) :=
  dirty_cleared_only_after_install F1 st1 [[0, 0], [1, 0]] (fun _ hb => Or.inl hb)

/-- Claim C7 (amended): over one read that snapshots a dirty set of size `N`,
the progress reports are, in order: an initial `0.0` (this event fires on
every call, including when `N = 0`), then `95·k/N` as the `k`-th snapshotted
block completes, all strictly below `100`, and finally `100.0`, reported
exactly once and only after the concatenation; with `N = 0` the reports are
exactly `0.0` then `100.0`. -/
theorem progress_reports (F : Feeds) (st st' : CacheState) (m : Mat)
    (ev : List ℚ) (h : execute F st = Except.ok (st', m, ev)) :
    ev = ((0 : ℚ) :: (List.range' 1 st.dirty.length).map
        (fun k : Nat => 95 * (k : ℚ) / (st.dirty.length : ℚ))) ++ [100] ∧
    (∀ x ∈ (0 : ℚ) :: (List.range' 1 st.dirty.length).map
        (fun k : Nat => 95 * (k : ℚ) / (st.dirty.length : ℚ)), x < 100) ∧
    (st.dirty.length = 0 → ev = [0, 100]) := by
  obtain ⟨ev1, hdl, hev, _⟩ := execute_ok_inv F st st' m ev h
  have hev1 : ev1 = [0] ++ progressEvents st.dirty.length st.dirty.length :=
    drainLoop_events F st.dirty.length st.dirty st [0] st' ev1 rfl hdl
  have hform : ev = ((0 : ℚ) :: (List.range' 1 st.dirty.length).map
      (fun k : Nat => 95 * (k : ℚ) / (st.dirty.length : ℚ))) ++ [100] := by
    rw [hev, hev1, progressEvents_eq st.dirty.length st.dirty.length le_rfl]
    simp [Nat.sub_self]
  refine ⟨hform, ?_, ?_⟩
  · intro x hx
    rcases List.mem_cons.mp hx with hx | hx
    · rw [hx]; norm_num
    · rcases List.mem_map.mp hx with ⟨k, hk, hkx⟩
      rw [List.mem_range'_1] at hk
      have hk1 : 1 ≤ k := hk.1
      have hk2 : k ≤ st.dirty.length := by omega
      have hN : 1 ≤ st.dirty.length := le_trans hk1 hk2
      have hNq : (0 : ℚ) < (st.dirty.length : ℚ) := by exact_mod_cast hN
      rw [← hkx, div_lt_iff₀ hNq]
      have hkq : (k : ℚ) ≤ (st.dirty.length : ℚ) := by exact_mod_cast hk2
      nlinarith [hNq, hkq]
  · intro h0
    rw [hform, h0]
    simp

/-- Witness for the amended claim C7 at the clean state `st0` (`N = 0`). -/
theorem progress_reports_witness :
    ([0, 100] : List ℚ) = ((0 : ℚ) :: (List.range' 1 st0.dirty.length).map
        (fun k : Nat => 95 * (k : ℚ) / (st0.dirty.length : ℚ))) ++ [100] ∧
    (∀ x ∈ (0 : ℚ) :: (List.range' 1 st0.dirty.length).map
        (fun k : Nat => 95 * (k : ℚ) / (st0.dirty.length : ℚ)), x < 100) ∧
    (st0.dirty.length = 0 → ([0, 100] : List ℚ) = [0, 100]) :=
  progress_reports F0 st0 st0 ⟨[], 0⟩ [0, 100] rfl

/-- Claim C7, counterexample: with an empty dirty snapshot (`N = 0`) the call
still fires the initial `0.0` progress event before the final `100.0`: the
event sequence is `[0, 100]` and not merely the final completion event. -/
theorem progress_initial_event_cex :
    execute F0 st0 = Except.ok (st0, ⟨[], 0⟩, [0, 100]) ∧
    ([(0 : ℚ), 100] : List ℚ) ≠ ([100] : List ℚ) :=
  ⟨rfl, by simp⟩

/-- Claim C8, counterexample: with shapes `[0, 5, 7]` and `[0, 5, 1]` that
match on every non-channel axis (channel last, one label channel) and a
positive budget, setup nevertheless fails, because the first axis has zero
extent — malformed input that the spec's Block Grid must reject fast — so
the claim's unconditional success clause is false. -/
theorem setup_zero_length_shape_cex :
    List.dropLast [0, 5, 7] = List.dropLast [0, 5, 1] ∧
    setupOutputs [0, 5, 7] [0, 5, 1] ['x', 'y', 'c'] ['x', 'y', 'c'] 1000000 =
      Except.error
        "determineBlockShape: every axis of the shape must have positive extent" :=
  ⟨rfl, rfl⟩

/-- Claim C8 (amended): with both feeds channel-last and a single label
channel, setup fails fast — the shape checks precede the block-shape
computation in `setupOutputs` — with an error naming both shapes whenever
the two feeds disagree on any non-channel axis, fails when the block-volume
budget is non-positive, fails when any axis of the label shape has zero
extent (malformed input), and succeeds when the shapes match, every axis
extent is positive and the budget is positive. -/
theorem setup_validates_inputs (fs ls : List Nat) (fa la : List Char)
    (budget : Int) (hfa : fa.getLast? = some 'c') (hla : la.getLast? = some 'c')
    (hls : ls.getLast? = some 1) :
    (fs.dropLast ≠ ls.dropLast →
      setupOutputs fs ls fa la budget = Except.error (mismatchMsg fs ls)) ∧
    (budget ≤ 0 → ∃ e, setupOutputs fs ls fa la budget = Except.error e) ∧
    (0 ∈ ls → ∃ e, setupOutputs fs ls fa la budget = Except.error e) ∧
    (fs.dropLast = ls.dropLast → 0 < budget → 0 ∉ ls →
      ∃ bs, setupOutputs fs ls fa la budget = Except.ok bs) := by
  unfold setupOutputs
  rw [if_neg (fun hh => hh hfa), if_neg (fun hh => hh hla), if_neg (fun hh => hh hls)]
  refine ⟨?_, ?_, ?_, ?_⟩
  · intro hne
    rw [if_pos hne]
  · intro hb
    by_cases hne : fs.dropLast ≠ ls.dropLast
    · rw [if_pos hne]
      exact ⟨_, rfl⟩
    · rw [if_neg hne]
      unfold determineBlockShape
      rw [if_pos hb]
      exact ⟨_, rfl⟩
  · intro hz
    by_cases hne : fs.dropLast ≠ ls.dropLast
    · rw [if_pos hne]
      exact ⟨_, rfl⟩
    · rw [if_neg hne]
      unfold determineBlockShape
      by_cases hb : budget ≤ 0
      · rw [if_pos hb]
        exact ⟨_, rfl⟩
      · rw [if_neg hb, if_pos hz]
        exact ⟨_, rfl⟩
  · intro heq hpos hz
    rw [if_neg (fun hh => hh heq)]
    unfold determineBlockShape
    rw [if_neg (by omega), if_neg hz]
    exact ⟨_, rfl⟩

/-- Witness for the amended claim C8 at concrete matching, well-formed
shapes with a positive budget (the success branch). -/
theorem setup_validates_inputs_witness :
    (List.dropLast [4, 4, 2] ≠ List.dropLast [4, 4, 1] →
      setupOutputs [4, 4, 2] [4, 4, 1] ['x', 'y', 'c'] ['x', 'y', 'c'] 1000000 =
        Except.error (mismatchMsg [4, 4, 2] [4, 4, 1])) ∧
    ((1000000 : Int) ≤ 0 → ∃ e,
      setupOutputs [4, 4, 2] [4, 4, 1] ['x', 'y', 'c'] ['x', 'y', 'c'] 1000000 =
        Except.error e) ∧
    ((0 : Nat) ∈ ([4, 4, 1] : List Nat) → ∃ e,
      setupOutputs [4, 4, 2] [4, 4, 1] ['x', 'y', 'c'] ['x', 'y', 'c'] 1000000 =
        Except.error e) ∧
    (List.dropLast [4, 4, 2] = List.dropLast [4, 4, 1] → (0 : Int) < 1000000 →
      (0 : Nat) ∉ ([4, 4, 1] : List Nat) →
      ∃ bs, setupOutputs [4, 4, 2] [4, 4, 1] ['x', 'y', 'c'] ['x', 'y', 'c'] 1000000 =
        Except.ok bs) :=
  setup_validates_inputs [4, 4, 2] [4, 4, 1] ['x', 'y', 'c'] ['x', 'y', 'c'] 1000000
    rfl rfl rfl
